import Mathlib

set_option maxRecDepth 8000

/-!
Verification of the content-classification and crawl-orchestration engine of a
keyword web scraper (source: `src/app.py`).

The HTML document tree produced by the parser is embedded as a rose tree
(`Node`), and the position of a text node inside its document is recorded as a
zipper path (`List Frame`), which gives the classifier access to parents,
ancestors and siblings exactly as the dynamic tree API of the source does.

Python peculiarities are modelled as follows: strings are Lean `String`s and
`str.lower` is mapped ASCII-wise (`lower`), `str.find` returns an index option
(`str_find`, with the `-1` convention restored at the use site), Python sets
are modelled as duplicate-free lists in insertion order, and the fetching layer
(`requests.get` plus `BeautifulSoup`) is an oracle `String → Option Response`
where `none` stands for a raised transport error and a `Response` carries the
HTTP status code and the parsed document.
-/

/-- Whitespace characters matched by Python's regex `\s` and `str.strip` (ASCII range). -/
def isPyWhitespace (c : Char) : Bool :=
  c = ' ' || c = '\t' || c = '\n' || c = '\r' || c = '\x0b' || c = '\x0c'

/-- Maximal whitespace-free words of a character list, left to right: `acc`
holds the (reversed) word being read. -/
def wordsAux : List Char → List Char → List String
  | [], acc => if acc = [] then [] else [String.mk acc.reverse]
  | c :: cs, acc =>
      if isPyWhitespace c then
        (if acc = [] then wordsAux cs [] else String.mk acc.reverse :: wordsAux cs [])
      else wordsAux cs (c :: acc)

/-- Whitespace-separated words of a string (Python `str.split()` with no arguments). -/
def pyWords (s : String) : List String :=
  wordsAux s.data []

/-- Source `clean_text`: `re.sub(r"\s+", " ", text).strip()` — collapse every
whitespace run to one space and trim the ends; equivalently, the
whitespace-separated words joined by single spaces. -/
def clean_text (text : String) : String :=
  String.intercalate " " (pyWords text)

/-- Python `str.lower`, modelled ASCII-wise. -/
def lower (s : String) : String :=
  String.mk (s.data.map Char.toLower)

/-- Python `str.strip` (no arguments): drop leading and trailing whitespace. -/
def pyStrip (s : String) : String :=
  String.mk (((s.data.dropWhile isPyWhitespace).reverse.dropWhile isPyWhitespace).reverse)

/-- Test whether `pat` is a prefix of `l` (character lists). -/
def prefixAt (pat l : List Char) : Bool :=
  match pat, l with
  | [], _ => true
  | _ :: _, [] => false
  | p :: ps, c :: cs => p = c && prefixAt ps cs

/-- First index at which `pat` occurs in `l`, scanning left to right
(the index returned by Python's `str.find` when it is not `-1`). -/
def findSub (pat : List Char) : List Char → Option Nat
  | [] => if prefixAt pat [] then some 0 else none
  | c :: cs => if prefixAt pat (c :: cs) then some 0 else (findSub pat cs).map (· + 1)

/-- Python `haystack.find(needle)` as an option. -/
def str_find (haystack needle : String) : Option Nat :=
  findSub needle.data haystack.data

/-- Python `needle in haystack` on strings. -/
def containsSub (haystack needle : String) : Bool :=
  (str_find haystack needle).isSome

/-- Case-insensitive substring test: the search performed by
`re.compile(re.escape(kw), re.IGNORECASE)` on a text node. -/
def containsCI (haystack needle : String) : Bool :=
  containsSub (lower haystack) (lower needle)

/-- Parsed HTML tree as exposed by the parser: an element with a tag name,
attributes and children, or a text node. -/
inductive Node where
  | text (s : String)
  | elem (tag : String) (attrs : List (String × String)) (children : List Node)

/-- Tag name of a node; text nodes have none. -/
def tagOf : Node → String
  | .text _ => ""
  | .elem t _ _ => t

/-- Whether a node is an element (a `Tag` in the source's parser, as opposed
to a `NavigableString`). -/
def isElem : Node → Bool
  | .text _ => false
  | .elem _ _ _ => true

/-- First value bound to an attribute name, as `tag["href"]`. -/
def get_attr (name : String) : Node → Option String
  | .text _ => none
  | .elem _ attrs _ => (attrs.find? (fun p => p.1 = name)).map Prod.snd

mutual

/-- All text-node contents of a subtree in document order (the strings joined
by the parser's `get_text`). -/
def textsOf : Node → List String
  | .text s => [s]
  | .elem _ _ cs => textsOfList cs

def textsOfList : List Node → List String
  | [] => []
  | c :: cs => textsOf c ++ textsOfList cs

end

/-- Source `node.get_text(sep)`: every string of the subtree joined by `sep`
(`sep = ""` models the default `get_text()`). -/
def get_text (sep : String) (n : Node) : String :=
  String.intercalate sep (textsOf n)

/-- Source `node.get_text(" ", strip=True)`: each string stripped, empty
strings dropped, the rest joined by one space. -/
def get_text_strip (n : Node) : String :=
  String.intercalate " " (((textsOf n).map pyStrip).filter (fun w => w ≠ ""))

mutual

/-- Descendant elements (the node itself included when it is an element) whose
tag is in `tags`, in document order — the traversal behind `find_all`. -/
def findTagsNode (tags : List String) : Node → List Node
  | .text _ => []
  | .elem t a cs => (if t ∈ tags then [Node.elem t a cs] else []) ++ findTagsList tags cs

def findTagsList (tags : List String) : List Node → List Node
  | [] => []
  | c :: cs => findTagsNode tags c ++ findTagsList tags cs

end

/-- Source `node.find_all(tags)`: matching descendants of `n` (excluding `n`
itself), in document order. -/
def find_all_tags (tags : List String) (n : Node) : List Node :=
  match n with
  | .text _ => []
  | .elem _ _ cs => findTagsList tags cs

mutual

/-- Source `tag.decompose()` applied to every descendant whose tag is in
`tags`: `stripOne` keeps a node (recursively cleaned) or drops it. -/
def stripOne (tags : List String) : Node → List Node
  | .text s => [.text s]
  | .elem t a cs => if t ∈ tags then [] else [.elem t a (stripTagsList tags cs)]

def stripTagsList (tags : List String) : List Node → List Node
  | [] => []
  | c :: cs => stripOne tags c ++ stripTagsList tags cs

end

/-- Source `for tag in soup(tags): tag.decompose()` — remove every matching
subtree below the root. -/
def stripTagsNode (tags : List String) : Node → Node
  | .text s => .text s
  | .elem t a cs => .elem t a (stripTagsList tags cs)

/-- One step of a zipper path: the tag and attributes of a parent element
together with the siblings to the left and to the right of the hole. -/
structure Frame where
  tag : String
  attrs : List (String × String)
  left : List Node
  right : List Node

/-- Rebuild the parent element of `n` from its frame. -/
def Frame.fill (f : Frame) (n : Node) : Node :=
  .elem f.tag f.attrs (f.left ++ n :: f.right)

/-- Chain of ancestors of `n` (its parent first, the root last) rebuilt from a
zipper path — the nodes visited by `find_parent`. -/
def ancestorNodes : Node → List Frame → List Node
  | _, [] => []
  | n, f :: fs => f.fill n :: ancestorNodes (f.fill n) fs

mutual

/-- All text nodes of a subtree, each paired with its zipper path back to the
root of the traversal (document order). -/
def collectNode : Node → List Frame → List (String × List Frame)
  | .text s, fr => [(s, fr)]
  | .elem t a cs, fr => collectChildren t a [] cs fr

def collectChildren (t : String) (a : List (String × String)) (left : List Node) :
    List Node → List Frame → List (String × List Frame)
  | [], _ => []
  | c :: right, fr =>
      collectNode c ({ tag := t, attrs := a, left := left, right := right } :: fr) ++
        collectChildren t a (left ++ [c]) right fr

end

/-- Text nodes of a document with their positions, in document order (the
candidates enumerated by `soup.find_all(string=...)`). -/
def text_nodes (soup : Node) : List (String × List Frame) :=
  collectNode soup []

/-- Closed enumeration of structural context types (§3 of the design); the
source encodes them as the strings `"Table Row"`, `"Section Header"`,
`"List Item"`, `"Text Block"`. -/
inductive ContextType where
  | tableRow
  | sectionHeader
  | listItem
  | textBlock
deriving DecidableEq

/-- Tags treated as headers by rule 2 of the classifier. -/
def header_tags : List String :=
  ["dt", "b", "strong", "h1", "h2", "h3", "h4", "h5", "h6"]

/-- Tags at which the rule-4 upward walk stops. -/
def fallback_stop_tags : List String :=
  ["p", "div", "article"]

/-- Source lines 119–127: walk upward from the match's containing element
until reaching a `p`/`div`/`article`, stopping at `body` or at the root. -/
def fallback_container : String → Node → List Frame → Node
  | _, n, [] => n
  | tag, n, f :: fs =>
      if tag ∈ fallback_stop_tags then n
      else if f.tag = "body" then f.fill n
      else fallback_container f.tag (f.fill n) fs

/-- Source lines 130–134: when the block text exceeds 300 characters, keep the
window from 50 characters before to 150 characters after the start of the
keyword's first case-insensitive occurrence (Python `find` returns `-1` when
the occurrence is missing), between ellipsis markers. -/
def truncate_block (kw block : String) : String :=
  if 300 < block.length then
    let start_idx : Int :=
      match str_find (lower block) (lower kw) with
      | some i => (i : Int)
      | none => -1
    let start : Int := max 0 (start_idx - 50)
    let stop : Int := min (block.length : Int) (start_idx + 150)
    "..." ++ String.mk ((block.data.drop start.toNat).take (stop - start).toNat) ++ "..."
  else block

/-- Normalized text of the next sibling element of the node whose zipper path
is `fs`, or `""` when no element follows it (source line 102–103:
`find_next_sibling` skips text-node siblings). -/
def sibling_value : List Frame → String
  | [] => ""
  | pf :: _ =>
      match pf.right.find? isElem with
      | some sib => clean_text (get_text "" sib)
      | none => ""

/-- Parent element of `n` along the zipper path (`n` itself at the root; the
pipeline only reaches this fallback on element-rooted documents where a parent
always exists). -/
def parent_node (n : Node) : List Frame → Node
  | [] => n
  | pf :: _ => pf.fill n

/-- Source lines 79–135, classification of one keyword match: given the
keyword, the matched text node's content `s` and its zipper path, produce the
snippet text and the context type by the first applicable rule among
Table Row, Section Header, List Item and the Text Block fallback.
A path `[]` (a bare text node with no parent at all) cannot arise from an
element-rooted document and is given the harmless fallback reading. -/
def classify_match (kw s : String) : List Frame → String × ContextType
  | [] => (truncate_block kw (clean_text s), .textBlock)
  | f :: fs =>
      let element := f.fill (.text s)
      match (ancestorNodes element fs).find? (fun a => tagOf a = "tr") with
      | some tr =>
          (String.intercalate " | "
            ((find_all_tags ["td", "th"] tr).map (fun td => clean_text (get_text "" td))),
           .tableRow)
      | none =>
          if f.tag ∈ header_tags then
            let header := clean_text (get_text "" element)
            let value := sibling_value fs
            (if value ≠ "" then header ++ ": " ++ value
             else clean_text (get_text "" (parent_node element fs)),
             .sectionHeader)
          else
            match (ancestorNodes element fs).find? (fun a => tagOf a = "li") with
            | some li => (clean_text (get_text " " li), .listItem)
            | none =>
                (truncate_block kw (clean_text (get_text " " (fallback_container f.tag element fs))),
                 .textBlock)

/-- ExtractionRecord before the orchestrator tags it with a URL. -/
structure Record where
  keyword : String
  context : String
  type : ContextType
deriving DecidableEq

/-- Source lines 79–144, the match loop for one keyword: classify each match,
drop snippets shorter than 3 characters or containing `"copyright"`
(case-insensitively), and drop snippet texts already seen for this keyword. -/
def process_matches (kw : String) : List (String × List Frame) → List String → List Record
  | [], _ => []
  | m :: rest, seen =>
      let bt := classify_match kw m.1 m.2
      if decide (bt.1.length < 3) || containsSub (lower bt.1) "copyright" then
        process_matches kw rest seen
      else if bt.1 ∈ seen then
        process_matches kw rest seen
      else
        { keyword := kw, context := bt.1, type := bt.2 } :: process_matches kw rest (bt.1 :: seen)

/-- Source line 76: the text nodes matched by
`soup.find_all(string=re.compile(re.escape(kw), re.IGNORECASE))`. -/
def find_matches (soup : Node) (kw : String) : List (String × List Frame) :=
  (text_nodes soup).filter (fun m => containsCI m.1 kw)

/-- One iteration of the outer keyword loop of `get_structured_data`, with its
freshly created `seen_blocks` set. -/
def process_keyword (soup : Node) (kw : String) : List Record :=
  process_matches kw (find_matches soup kw) []

/-- Source `get_structured_data`: records of every keyword, in keyword order. -/
def get_structured_data (soup : Node) (keywords : List String) : List Record :=
  (keywords.map (process_keyword soup)).flatten

/-- Prefix test on strings by characters. -/
def strHasPrefix (p s : String) : Bool :=
  prefixAt p.data s.data

/-- Drop the first `n` characters of a string. -/
def strDropChars (s : String) (n : Nat) : String :=
  String.mk (s.data.drop n)

/-- Longest prefix of characters satisfying `p`. -/
def strTakeWhileChars (s : String) (p : Char → Bool) : String :=
  String.mk (s.data.takeWhile p)

/-- Scheme prefix of an http(s) URL, with the remainder. -/
def url_scheme_split (url : String) : Option (String × String) :=
  if strHasPrefix "http://" url then some ("http", strDropChars url 7)
  else if strHasPrefix "https://" url then some ("https", strDropChars url 8)
  else none

/-- Modelled after `urllib.parse.urlparse(url).netloc` restricted to the
http(s) URLs this scraper handles: the host[:port] part, or `""` for a
relative reference. -/
def url_netloc (url : String) : String :=
  match url_scheme_split url with
  | some (_, rest) => strTakeWhileChars rest (fun c => c ≠ '/' && c ≠ '?' && c ≠ '#')
  | none => ""

/-- Modelled after `urllib.parse.urljoin(base, href)`, simplified to the cases
the engine meets: an absolute href is kept as is, otherwise it is resolved
against the base URL's scheme and network location. -/
def urljoin (base href : String) : String :=
  match url_scheme_split href with
  | some _ => href
  | none =>
      match url_scheme_split base with
      | some (scheme, rest) =>
          let netloc := strTakeWhileChars rest (fun c => c ≠ '/' && c ≠ '?' && c ≠ '#')
          if strHasPrefix "/" href then scheme ++ "://" ++ netloc ++ href
          else scheme ++ "://" ++ netloc ++ "/" ++ href
      | none => href

/-- Anchor elements carrying an `href` attribute, with that attribute value
(source `soup.find_all("a", href=True)`), in document order. -/
def anchors_with_href (soup : Node) : List (Node × String) :=
  (find_all_tags ["a"] soup).filterMap (fun a => (get_attr "href" a).map (fun h => (a, h)))

/-- Source lines 157–160: a link qualifies when some keyword occurs in its
(lowered, space-joined) visible text or in its raw href, case-insensitively. -/
def link_matches_keyword (keywords : List String) (text href : String) : Bool :=
  keywords.any (fun kw => containsSub text (lower kw) || containsSub (lower href) (lower kw))

/-- Insertion into the model of a Python `set`: a duplicate-free list in
insertion order. -/
def insert_if_new (l : List String) (u : String) : List String :=
  if u ∈ l then l else l ++ [u]

/-- Loop body of `find_relevant_links` (source lines 151–160) for one anchor:
resolve the href, drop it on a network-location mismatch, otherwise add it
when a keyword occurs in the anchor's lowered visible text or raw href. -/
def link_step (base_url : String) (keywords : List String)
    (acc : List String) (ah : Node × String) : List String :=
  let text := lower (get_text_strip ah.1)
  let full_url := urljoin base_url ah.2
  if url_netloc full_url ≠ url_netloc base_url then acc
  else if link_matches_keyword keywords text ah.2 then insert_if_new acc full_url
  else acc

/-- Source `find_relevant_links`: same-domain resolved anchor URLs whose text
or href mentions a keyword. The Python `set` is modelled as a duplicate-free
list in insertion order (the source's iteration order over the set is
unspecified; every claim below is order-independent). -/
def find_relevant_links (base_url : String) (soup : Node) (keywords : List String) : List String :=
  (anchors_with_href soup).foldl (link_step base_url keywords) []

/-- Result of one `requests.get` followed by `BeautifulSoup` parsing: the HTTP
status code and the parsed document. A raised transport error is the `none`
of the fetch oracle. -/
structure Response where
  status : Nat
  doc : Node

/-- ExtractionRecord as accumulated by the orchestrator, tagged with the URL
of the page it was found on. -/
structure OutRecord where
  keyword : String
  context : String
  type : ContextType
  url : String
deriving DecidableEq

/-- Source line 179: noise tags stripped from the seed page in Phase 1. -/
def phase1_noise_tags : List String :=
  ["script", "style", "nav", "footer", "noscript"]

/-- Source line 215: noise tags stripped from a child page in Phase 2. -/
def phase2_noise_tags : List String :=
  ["script", "style", "nav", "footer"]

/-- Records of one cleaned page, tagged with its URL (source lines 185–187 and
219–221). -/
def page_records (url : String) (soup : Node) (keywords : List String) : List OutRecord :=
  (get_structured_data soup keywords).map
    (fun r => { keyword := r.keyword, context := r.context, type := r.type, url := url })

/-- One Phase-2 iteration (source lines 202–225) on the state
`(accumulated records, visited URLs)`: skip a visited link; otherwise fetch
it, a failed fetch being silently skipped, and in every non-skipped iteration
mark the link visited. -/
def phase2_step (fetch : String → Option Response) (keywords : List String)
    (acc : List OutRecord × List String) (link : String) : List OutRecord × List String :=
  if link ∈ acc.2 then acc
  else
    match fetch link with
    | some resp =>
        (acc.1 ++ page_records link (stripTagsNode phase2_noise_tags resp.doc) keywords,
         acc.2 ++ [link])
    | none => (acc.1, acc.2 ++ [link])

/-- Source `scrape_logic` with the fetching layer abstracted as an oracle:
Phase 1 fetches and classifies the seed page (any failure aborts with `[]`),
Phase 2 walks the candidate links. The politeness delay and the progress
display have no effect on the returned data and are not modelled. -/
def scrape_logic (fetch : String → Option Response) (base_url : String)
    (keywords : List String) : List OutRecord :=
  match fetch base_url with
  | none => []
  | some resp =>
      let soup := stripTagsNode phase1_noise_tags resp.doc
      let home_data := page_records base_url soup keywords
      let child_links := find_relevant_links base_url soup keywords
      (child_links.foldl (phase2_step fetch keywords) (home_data, [base_url])).1

/-- Crawl state instrumented with the list of URLs actually requested from the
fetcher, in request order. -/
structure CrawlState where
  records : List OutRecord
  visited : List String
  requested : List String

/-- Phase-2 iteration of the instrumented orchestrator: identical to
`phase2_step`, and additionally records that a request was issued for every
non-skipped link (source line 213 issues the request before any failure can
occur). -/
def phase2_step_traced (fetch : String → Option Response) (keywords : List String)
    (st : CrawlState) (link : String) : CrawlState :=
  if link ∈ st.visited then st
  else
    match fetch link with
    | some resp =>
        { records := st.records ++ page_records link (stripTagsNode phase2_noise_tags resp.doc) keywords,
          visited := st.visited ++ [link],
          requested := st.requested ++ [link] }
    | none =>
        { records := st.records,
          visited := st.visited ++ [link],
          requested := st.requested ++ [link] }

/-- Instrumented `scrape_logic`: the returned records together with the URLs
requested from the fetcher (the seed request of source line 175 is issued
unconditionally, before its success is known). -/
def scrape_logic_traced (fetch : String → Option Response) (base_url : String)
    (keywords : List String) : List OutRecord × List String :=
  match fetch base_url with
  | none => ([], [base_url])
  | some resp =>
      let soup := stripTagsNode phase1_noise_tags resp.doc
      let home_data := page_records base_url soup keywords
      let child_links := find_relevant_links base_url soup keywords
      let st := child_links.foldl (phase2_step_traced fetch keywords)
        { records := home_data, visited := [base_url], requested := [base_url] }
      (st.records, st.requested)

/-- Rule selection as worded by the spec (§4.2): the first applicable rule in
the fixed order Table Row, Section Header, List Item wins, with Text Block as
the unconditional fallback. Stated against this definition, the classifier is
checked to implement exactly this order. -/
def spec_rule_order (inTableRow isHeader inListItem : Bool) : ContextType :=
  if inTableRow then .tableRow
  else if isHeader then .sectionHeader
  else if inListItem then .listItem
  else .textBlock

/-- Synthetic document whose single keyword occurrence sits inside a list item
that is itself inside a table row. -/
def doc_tr_li : Node :=
  .elem "[document]" []
    [.elem "table" [] [.elem "tr" [] [.elem "td" [] [.elem "li" [] [.text "fee"]]]]]

/-- Document in which the same qualifying text block is reachable from two
distinct text nodes, and two different keywords produce the same snippet. -/
def doc_dup : Node :=
  .elem "[document]" []
    [.elem "p" [] [.text "alpha beta"], .elem "p" [] [.text "alpha beta"]]

/-- Child page whose only content sits inside a `noscript` element. -/
def c8_child_doc : Node :=
  .elem "[document]" [] [.elem "noscript" [] [.elem "p" [] [.text "fee data here"]]]

/-- Seed page with one keyword-relevant same-domain link to the child page. -/
def c8_home_doc : Node :=
  .elem "[document]" [] [.elem "a" [("href", "http://s.com/n")] [.text "fee page"]]

/-- Fetch oracle for the C8 scenario. -/
def c8_fetch : String → Option Response := fun u =>
  if u = "http://s.com/" then some { status := 200, doc := c8_home_doc }
  else if u = "http://s.com/n" then some { status := 200, doc := c8_child_doc }
  else none

/-- Fetch oracle for the C9 counterexample: every URL resolves. -/
def c9_fetch : String → Option Response := fun _ =>
  some { status := 200, doc := .elem "[document]" [] [.text "fee"] }

/-- Contribution of one candidate link in Phase 2: the records of its cleaned
page when its fetch succeeds, nothing when its fetch fails. -/
def fetched_records (fetch : String → Option Response) (keywords : List String)
    (l : String) : List OutRecord :=
  match fetch l with
  | some r => page_records l (stripTagsNode phase2_noise_tags r.doc) keywords
  | none => []

/-- Seed page for the C3 witness: three keyword-relevant same-domain links. -/
def c3_home : Node :=
  .elem "[document]" []
    [.elem "p" [] [.text "fee info."],
     .elem "a" [("href", "http://s.com/a1")] [.text "fee one"],
     .elem "a" [("href", "http://s.com/a2")] [.text "fee two"],
     .elem "a" [("href", "http://s.com/a3")] [.text "fee three"]]

/-- Fetch oracle for the C3 witness: the middle candidate link fails. -/
def c3_fetch : String → Option Response := fun u =>
  if u = "http://s.com/" then some { status := 200, doc := c3_home }
  else if u = "http://s.com/a1" then
    some { status := 200, doc := .elem "[document]" [] [.elem "p" [] [.text "fee alpha"]] }
  else if u = "http://s.com/a3" then
    some { status := 200, doc := .elem "[document]" [] [.elem "p" [] [.text "fee gamma"]] }
  else none

/-- Page served in the C10 witness. -/
def c10_doc : Node :=
  .elem "[document]" [] [.elem "p" [] [.text "fee stuff"]]

/-- Fetch oracle answering the seed with status 200. -/
def c10_fetch_ok : String → Option Response := fun u =>
  if u = "http://s.com/" then some { status := 200, doc := c10_doc } else none

/-- Fetch oracle answering the seed with the same body but status 404. -/
def c10_fetch_err : String → Option Response := fun u =>
  if u = "http://s.com/" then some { status := 404, doc := c10_doc } else none

/-- Frames of a text node sitting in a `b` element whose next sibling is a
`p` with text, used as the C7 witness input. -/
def c7w_fs : List Frame :=
  [{ tag := "div", attrs := [], left := [], right := [.elem "p" [] [.text " 1.5% "]] },
   { tag := "[document]", attrs := [], left := [], right := [] }]

/-- Document for the C7 counterexample: the header's next sibling element
exists but has empty text, and a further sibling carries text. -/
def c7_doc : Node :=
  .elem "[document]" []
    [.elem "div" []
      [.elem "b" [] [.text "Fee"], .elem "span" [] [], .elem "p" [] [.text "xyz"]]]

/-- Block text of the rule-4 fallback container for a match. -/
def fallback_block (s : String) (f : Frame) (fs : List Frame) : String :=
  clean_text (get_text " " (fallback_container f.tag (f.fill (.text s)) fs))

/-- Text content for the C2 witness: 301 characters starting with the keyword. -/
def c2w_s : String :=
  String.mk ('f' :: 'e' :: 'e' :: List.replicate 298 'x')

/-- Keyword of 151 characters for the C2 counterexample. -/
def c2_long_kw : String :=
  String.mk (List.replicate 151 'a')

/-- Paragraph text of 301 characters starting with the long keyword. -/
def c2_long_text : String :=
  String.mk (List.replicate 151 'a' ++ List.replicate 150 'b')

/-- Document carrying the long paragraph. -/
def c2_doc : Node :=
  .elem "[document]" [] [.elem "p" [] [.text c2_long_text]]

/-- Sanity evaluation of the embedding on a concrete input. -/
theorem sanity_clean_text : clean_text "  a \t b\n" = "a b" := by decide

/-- Sanity evaluation of the embedding on a concrete input. -/
theorem sanity_text_nodes_zipper :
    get_structured_data
      (.elem "[document]" [] [.elem "table" [] [.elem "tr" []
        [.elem "td" [] [.text "Millennia"], .elem "td" [] [.text "1.5%"]]]])
      ["Millennia"] =
      [{ keyword := "Millennia", context := "Millennia | 1.5%", type := .tableRow }] := by
  decide

/-- Sanity evaluation of the embedding on a concrete input. -/
theorem sanity_get_text_join :
    text_nodes (.elem "p" [] [.text "x", .elem "b" [] [.text "y"]]) =
      [("x", [{ tag := "p", attrs := [], left := [], right := [.elem "b" [] [.text "y"]] }]),
       ("y", [{ tag := "b", attrs := [], left := [], right := [] },
              { tag := "p", attrs := [], left := [.text "x"], right := [] }])] := by
  simp [text_nodes, collectNode, collectChildren]

/-- Sanity evaluation of the embedding on a concrete input. -/
theorem sanity_millennia_table_row : get_text " " (.elem "p" [] [.text "a", .elem "b" [] [.text "c"]]) = "a c" := by decide

/-- Every record produced by the match loop of one keyword survived the length
and copyright filter and carries that keyword. -/
theorem mem_process_matches (kw : String) :
    ∀ (ms : List (String × List Frame)) (seen : List String) (r : Record),
      r ∈ process_matches kw ms seen →
      3 ≤ r.context.length ∧ containsSub (lower r.context) "copyright" = false ∧
        r.keyword = kw := by
  intro ms
  induction ms with
  | nil => intro seen r h; simp [process_matches] at h
  | cons m rest ih =>
      intro seen r h
      simp only [process_matches] at h
      split at h
      · exact ih _ r h
      · rename_i hfilter
        split at h
        · exact ih _ r h
        · rcases List.mem_cons.mp h with hr | hr
          · subst hr
            simp only [Bool.or_eq_true, decide_eq_true_eq, not_or] at hfilter
            obtain ⟨h1, h2⟩ := hfilter
            refine ⟨?_, ?_, rfl⟩
            · show 3 ≤ (classify_match kw m.1 m.2).1.length
              omega
            · show containsSub (lower (classify_match kw m.1 m.2).1) "copyright" = false
              simpa using h2
          · exact ih _ r hr

/-- Membership in `get_structured_data` comes from the loop of one of the
keywords. -/
theorem mem_get_structured_data {soup : Node} {keywords : List String} {r : Record}
    (h : r ∈ get_structured_data soup keywords) :
    ∃ kw ∈ keywords, r ∈ process_keyword soup kw := by
  simp only [get_structured_data, List.mem_flatten, List.mem_map] at h
  obtain ⟨l, ⟨kw, hkw, rfl⟩, hr⟩ := h
  exact ⟨kw, hkw, hr⟩

/-- C5: every record emitted by the classifier, for any document and keyword
list, has a context of at least 3 characters that does not contain the
substring "copyright" in any letter case; snippets violating either condition
are discarded before emission. -/
theorem c5_record_invariant (soup : Node) (keywords : List String) :
    ∀ r ∈ get_structured_data soup keywords,
      3 ≤ r.context.length ∧ containsSub (lower r.context) "copyright" = false := by
  intro r hr
  obtain ⟨kw, _, hmem⟩ := mem_get_structured_data hr
  have h := mem_process_matches kw _ _ r hmem
  exact ⟨h.1, h.2.1⟩

/-- Witness for C5 on a concrete document and record. -/
theorem c5_record_invariant_witness :
    3 ≤ ("Millennia | 1.5%" : String).length ∧
      containsSub (lower "Millennia | 1.5%") "copyright" = false :=
  c5_record_invariant
    (.elem "[document]" [] [.elem "table" [] [.elem "tr" []
      [.elem "td" [] [.text "Millennia"], .elem "td" [] [.text "1.5%"]]]])
    ["Millennia"]
    { keyword := "Millennia", context := "Millennia | 1.5%", type := .tableRow }
    (by decide)

/-- C1: the classifier assigns to every match exactly one `ContextType`, the
one selected by the first applicable rule in the fixed order Table Row,
Section Header, List Item, Text Block (the unconditional fallback); and on a
synthetic document whose match sits both inside a table row and inside a list
item, the assigned type is Table Row. -/
theorem c1_first_applicable_rule_wins :
    (∀ (kw s : String) (f : Frame) (fs : List Frame),
      (classify_match kw s (f :: fs)).2 =
        spec_rule_order
          ((ancestorNodes (f.fill (.text s)) fs).find? (fun a => tagOf a = "tr")).isSome
          (decide (f.tag ∈ header_tags))
          ((ancestorNodes (f.fill (.text s)) fs).find? (fun a => tagOf a = "li")).isSome) ∧
    get_structured_data doc_tr_li ["fee"] =
      [{ keyword := "fee", context := "fee", type := .tableRow }] := by
  constructor
  · intro kw s f fs
    simp only [classify_match, spec_rule_order]
    cases htr : (ancestorNodes (f.fill (.text s)) fs).find? (fun a => tagOf a = "tr") with
    | some tr => simp
    | none =>
        simp only [Option.isSome_none, Bool.false_eq_true, if_false]
        by_cases hh : f.tag ∈ header_tags
        · simp [hh]
        · cases hli : (ancestorNodes (f.fill (.text s)) fs).find? (fun a => tagOf a = "li") with
          | some li => simp [hh]
          | none => simp [hh]
  · decide

/-- Contexts of the records emitted by one keyword's match loop are pairwise
distinct, and none of them was in the seen-set the loop started from. -/
theorem process_matches_context_nodup (kw : String) :
    ∀ (ms : List (String × List Frame)) (seen : List String),
      ((process_matches kw ms seen).map (fun r => r.context)).Nodup ∧
        ∀ r ∈ process_matches kw ms seen, r.context ∉ seen := by
  intro ms
  induction ms with
  | nil => intro seen; simp [process_matches]
  | cons m rest ih =>
      intro seen
      simp only [process_matches]
      split
      · exact ih seen
      · split
        · exact ih seen
        · rename_i hfilter hseen
          constructor
          · simp only [List.map_cons, List.nodup_cons]
            constructor
            · intro hmem
              rw [List.mem_map] at hmem
              obtain ⟨r, hr, hctx⟩ := hmem
              have hnot := (ih ((classify_match kw m.1 m.2).1 :: seen)).2 r hr
              exact hnot (hctx ▸ List.mem_cons_self _ _)
            · exact (ih _).1
          · intro r hr
            rcases List.mem_cons.mp hr with hr | hr
            · subst hr; exact hseen
            · intro hmem
              exact (ih _).2 r hr (List.mem_cons_of_mem _ hmem)

/-- C4: within one page and one keyword the produced snippet texts are
pairwise distinct (an exact duplicate is silently dropped), while the same
snippet text produced for a different keyword on the same page is kept as a
separate record: on `doc_dup`, each of the two keywords matches two text nodes
yielding the same snippet, and the result has exactly one record per keyword,
both with the identical context. -/
theorem c4_dedup_per_keyword_per_page :
    (∀ (soup : Node) (kw : String),
        ((process_keyword soup kw).map (fun r => r.context)).Nodup) ∧
    get_structured_data doc_dup ["alpha", "beta"] =
      [{ keyword := "alpha", context := "alpha beta", type := .textBlock },
       { keyword := "beta", context := "alpha beta", type := .textBlock }] := by
  constructor
  · intro soup kw
    exact (process_matches_context_nodup kw _ []).1
  · decide

/-- Membership after `insert_if_new` is membership before it or equality with
the inserted URL. -/
theorem mem_insert_if_new {l : List String} {v u : String}
    (h : u ∈ insert_if_new l v) : u ∈ l ∨ u = v := by
  unfold insert_if_new at h
  split at h
  · exact Or.inl h
  · simpa using List.mem_append.mp h

/-- Every URL accumulated by the link-filter fold shares the seed's network
location, provided the URLs already accumulated do. -/
theorem link_fold_netloc (base_url : String) (keywords : List String) :
    ∀ (l : List (Node × String)) (acc : List String),
      (∀ u ∈ acc, url_netloc u = url_netloc base_url) →
      ∀ u ∈ l.foldl (link_step base_url keywords) acc, url_netloc u = url_netloc base_url := by
  intro l
  induction l with
  | nil => intro acc hacc; simpa using hacc
  | cons a l ih =>
      intro acc hacc
      simp only [List.foldl_cons]
      refine ih _ ?_
      intro u hu
      simp only [link_step] at hu
      split at hu
      · exact hacc u hu
      · rename_i hdom
        split at hu
        · rcases mem_insert_if_new hu with h | h
          · exact hacc u h
          · subst h
            simpa using hdom
        · exact hacc u hu

/-- C6: every URL returned by the link relevance filter, after resolving
relative hrefs against the seed URL, has the same network-location component
as the seed URL; a link resolving to a different network location is never
returned. -/
theorem c6_links_same_domain (base_url : String) (soup : Node) (keywords : List String) :
    ∀ u ∈ find_relevant_links base_url soup keywords,
      url_netloc u = url_netloc base_url := by
  intro u hu
  exact link_fold_netloc base_url keywords _ [] (by simp) u hu

/-- Witness for C6: on a page offering a same-domain and a cross-domain
anchor, a returned link indeed has the seed's network location. -/
theorem c6_links_same_domain_witness :
    "http://s.com/fees" ∈
        find_relevant_links "http://s.com/"
          (.elem "[document]" []
            [.elem "a" [("href", "http://s.com/fees")] [.text "fee schedule"],
             .elem "a" [("href", "http://evil.com/fees")] [.text "fee schedule"]])
          ["fee"] ∧
      url_netloc "http://s.com/fees" = url_netloc "http://s.com/" :=
  ⟨by decide,
   c6_links_same_domain "http://s.com/"
     (.elem "[document]" []
       [.elem "a" [("href", "http://s.com/fees")] [.text "fee schedule"],
        .elem "a" [("href", "http://evil.com/fees")] [.text "fee schedule"]])
     ["fee"] "http://s.com/fees" (by decide)⟩

/-- Searching inside an appended list of children splits into the two parts. -/
theorem findTagsList_append (tags : List String) (l1 l2 : List Node) :
    findTagsList tags (l1 ++ l2) = findTagsList tags l1 ++ findTagsList tags l2 := by
  induction l1 with
  | nil => simp [findTagsList]
  | cons c cs ih => simp [findTagsList, ih]

mutual

/-- After stripping, a kept node contains no element with a stripped tag. -/
theorem findTags_stripOne (tags : List String) (d : Node) :
    findTagsList tags (stripOne tags d) = [] := by
  cases d with
  | text s => simp [stripOne, findTagsList, findTagsNode]
  | elem t a cs =>
      rw [stripOne]
      split
      · rfl
      · rename_i h
        rw [findTagsList, findTagsNode, if_neg h, findTagsList]
        rw [findTags_stripList tags cs]
        rfl

/-- After stripping, a list of children contains no element with a stripped
tag at any depth. -/
theorem findTags_stripList (tags : List String) (cs : List Node) :
    findTagsList tags (stripTagsList tags cs) = [] := by
  cases cs with
  | nil => rfl
  | cons c cs =>
      rw [stripTagsList, findTagsList_append]
      rw [findTags_stripOne tags c, findTags_stripList tags cs]
      rfl

end

/-- C8 counterexample: Phase 2 does not strip the same noise categories as
Phase 1 — `noscript` is stripped from the seed page only. On this crawl the
child page's `noscript` subtree contributes a record, while the same document
processed with the Phase-1 noise list yields nothing. -/
theorem c8_counterexample :
    scrape_logic c8_fetch "http://s.com/" ["fee"] =
      [{ keyword := "fee", context := "fee page", type := .textBlock, url := "http://s.com/" },
       { keyword := "fee", context := "fee data here", type := .textBlock, url := "http://s.com/n" }] ∧
    get_structured_data (stripTagsNode phase1_noise_tags c8_child_doc) ["fee"] = [] ∧
    "noscript" ∉ phase2_noise_tags := by
  refine ⟨by decide, by decide, by decide⟩

/-- C8 amended: before classification each successfully fetched child page has
the Phase-2 noise categories — script, style, nav and footer, but not
noscript — structurally removed, so no element with one of those tags
survives in its tree; the seed page additionally loses noscript subtrees. -/
theorem c8_amended (d : Node) :
    find_all_tags phase2_noise_tags (stripTagsNode phase2_noise_tags d) = [] ∧
    find_all_tags phase1_noise_tags (stripTagsNode phase1_noise_tags d) = [] := by
  constructor
  · cases d with
    | text s => rfl
    | elem t a cs =>
        rw [stripTagsNode]
        exact findTags_stripList phase2_noise_tags cs
  · cases d with
    | text s => rfl
    | elem t a cs =>
        rw [stripTagsNode]
        exact findTags_stripList phase1_noise_tags cs

/-- With no keywords, one anchor step of the link filter adds nothing. -/
theorem link_step_no_keywords (base_url : String) (acc : List String) (ah : Node × String) :
    link_step base_url [] acc ah = acc := by
  simp [link_step, link_matches_keyword]

/-- With no keywords, the link filter returns no candidate links. -/
theorem find_relevant_links_no_keywords (base_url : String) (soup : Node) :
    find_relevant_links base_url soup [] = [] := by
  unfold find_relevant_links
  suffices h : ∀ (l : List (Node × String)) (acc : List String),
      l.foldl (link_step base_url []) acc = acc from h _ []
  intro l
  induction l with
  | nil => intro acc; rfl
  | cons a l ih => intro acc; rw [List.foldl_cons, link_step_no_keywords]; exact ih acc

/-- C9 amended: with an empty keyword list the orchestrator returns no
records and issues no Phase-2 request, but it does issue exactly one request,
for the seed URL, before discovering that there is nothing to match. -/
theorem c9_empty_keywords (fetch : String → Option Response) (base_url : String) :
    (scrape_logic_traced fetch base_url []).1 = [] ∧
    (scrape_logic_traced fetch base_url []).2 = [base_url] := by
  unfold scrape_logic_traced
  cases fetch base_url with
  | none => exact ⟨rfl, rfl⟩
  | some resp =>
      simp only [find_relevant_links_no_keywords]
      exact ⟨rfl, rfl⟩

/-- C9 counterexample: invoked with an empty keyword list, the orchestrator
still issues a request — the seed URL is fetched, contradicting "no request
is issued to the fetcher in either phase" (the result sequence is indeed
empty). -/
theorem c9_counterexample :
    (scrape_logic_traced c9_fetch "http://s.com/" []).2 ≠ [] ∧
    (scrape_logic_traced c9_fetch "http://s.com/" []).2 = ["http://s.com/"] ∧
    (scrape_logic_traced c9_fetch "http://s.com/" []).1 = [] := by
  refine ⟨by decide, by decide, by decide⟩

/-- Inserting into the modelled set keeps it duplicate-free. -/
theorem insert_if_new_nodup {l : List String} {v : String} (h : l.Nodup) :
    (insert_if_new l v).Nodup := by
  unfold insert_if_new
  split
  · exact h
  · rename_i hv
    rw [List.nodup_append]
    exact ⟨h, List.nodup_singleton v, by
      intro a ha hb
      rw [List.mem_singleton] at hb
      exact hv (hb ▸ ha)⟩

/-- The link-filter fold keeps the accumulated set duplicate-free. -/
theorem link_fold_nodup (base_url : String) (keywords : List String) :
    ∀ (l : List (Node × String)) (acc : List String), acc.Nodup →
      (l.foldl (link_step base_url keywords) acc).Nodup := by
  intro l
  induction l with
  | nil => intro acc h; exact h
  | cons a l ih =>
      intro acc h
      rw [List.foldl_cons]
      refine ih _ ?_
      simp only [link_step]
      split
      · exact h
      · split
        · exact insert_if_new_nodup h
        · exact h

/-- The candidate-link set contains no duplicate URL. -/
theorem find_relevant_links_nodup (base_url : String) (soup : Node) (keywords : List String) :
    (find_relevant_links base_url soup keywords).Nodup :=
  link_fold_nodup base_url keywords _ [] List.nodup_nil

/-- The records accumulated by the Phase-2 fold over a duplicate-free list of
links are the incoming records followed by the contribution of every link not
already visited. -/
theorem phase2_fold_records (fetch : String → Option Response) (keywords : List String) :
    ∀ (links : List String) (recs : List OutRecord) (visited : List String),
      links.Nodup →
      (links.foldl (phase2_step fetch keywords) (recs, visited)).1 =
        recs ++ (links.map (fun l =>
          if l ∈ visited then [] else fetched_records fetch keywords l)).flatten := by
  intro links
  induction links with
  | nil => intro recs visited _; simp
  | cons l ls ih =>
      intro recs visited h
      rcases List.nodup_cons.mp h with ⟨hl, hls⟩
      rw [List.foldl_cons]
      simp only [List.map_cons, List.flatten_cons]
      have hmem : ∀ x ∈ ls, (x ∈ visited ++ [l]) ↔ (x ∈ visited) := by
        intro x hx
        have hxl : x ≠ l := fun hxeq => hl (hxeq ▸ hx)
        simp [List.mem_append, hxl]
      have hmap : (ls.map (fun x => if x ∈ visited ++ [l] then []
            else fetched_records fetch keywords x)) =
          ls.map (fun x => if x ∈ visited then [] else fetched_records fetch keywords x) := by
        apply List.map_congr_left
        intro x hx
        simp only [hmem x hx]
      by_cases hv : l ∈ visited
      · have hstep : phase2_step fetch keywords (recs, visited) l = (recs, visited) := by
          simp [phase2_step, hv]
        rw [hstep, ih recs visited hls, if_pos hv]
        simp
      · cases hfl : fetch l with
        | some r =>
            have hstep : phase2_step fetch keywords (recs, visited) l =
                (recs ++ fetched_records fetch keywords l, visited ++ [l]) := by
              simp [phase2_step, hv, hfl, fetched_records]
            rw [hstep, ih _ _ hls, if_neg hv, List.append_assoc, hmap]
        | none =>
            have hstep : phase2_step fetch keywords (recs, visited) l =
                (recs, visited ++ [l]) := by
              simp [phase2_step, hv, hfl]
            have hfr : fetched_records fetch keywords l = [] := by
              simp [fetched_records, hfl]
            rw [hstep, ih _ _ hls, if_neg hv, hfr, hmap]
            simp

/-- C3: a failed Phase-1 fetch of the seed URL aborts the run with an empty
result; on a successful seed fetch the result is exactly the seed page's
records followed by, for each candidate link in turn, the records of its page
when its fetch succeeds and nothing when its fetch fails — so one failing
candidate is silently omitted and every other successfully fetched page still
contributes all of its records. -/
theorem c3_fatal_vs_recoverable (fetch : String → Option Response) (base_url : String)
    (keywords : List String) :
    (fetch base_url = none → scrape_logic fetch base_url keywords = []) ∧
    (∀ resp, fetch base_url = some resp →
      scrape_logic fetch base_url keywords =
        page_records base_url (stripTagsNode phase1_noise_tags resp.doc) keywords ++
          ((find_relevant_links base_url (stripTagsNode phase1_noise_tags resp.doc) keywords).map
            (fun l => if l = base_url then [] else fetched_records fetch keywords l)).flatten) := by
  constructor
  · intro h
    simp [scrape_logic, h]
  · intro resp h
    unfold scrape_logic
    rw [h]
    show ((find_relevant_links base_url (stripTagsNode phase1_noise_tags resp.doc) keywords).foldl
        (phase2_step fetch keywords)
        (page_records base_url (stripTagsNode phase1_noise_tags resp.doc) keywords, [base_url])).1 = _
    rw [phase2_fold_records fetch keywords _ _ _
      (find_relevant_links_nodup base_url (stripTagsNode phase1_noise_tags resp.doc) keywords)]
    congr 2
    apply List.map_congr_left
    intro x _
    simp [List.mem_singleton]

/-- Witness for C3: among three candidates the second fails; the run is not
aborted, that link's records are omitted, and the records of the seed page and
of the two other pages are all returned. -/
theorem c3_fatal_vs_recoverable_witness :
    c3_fetch "http://s.com/a2" = none ∧
    scrape_logic c3_fetch "http://s.com/" ["fee"] =
      [{ keyword := "fee", context := "fee info.", type := .textBlock, url := "http://s.com/" },
       { keyword := "fee", context := "fee info. fee one fee two fee three", type := .textBlock,
         url := "http://s.com/" },
       { keyword := "fee", context := "fee alpha", type := .textBlock, url := "http://s.com/a1" },
       { keyword := "fee", context := "fee gamma", type := .textBlock, url := "http://s.com/a3" }] := by
  refine ⟨rfl, ?_⟩
  have h := (c3_fatal_vs_recoverable c3_fetch "http://s.com/" ["fee"]).2
    { status := 200, doc := c3_home } rfl
  exact h.trans (by decide)

/-- The Phase-2 fold is blind to HTTP status codes: two fetch oracles that
agree on failures and on fetched documents drive it identically. -/
theorem phase2_fold_status_blind (f g : String → Option Response) (keywords : List String)
    (h : ∀ u, (f u).map Response.doc = (g u).map Response.doc) :
    ∀ (links : List String) (acc : List OutRecord × List String),
      links.foldl (phase2_step f keywords) acc = links.foldl (phase2_step g keywords) acc := by
  intro links
  induction links with
  | nil => intro acc; rfl
  | cons l ls ih =>
      intro acc
      rw [List.foldl_cons, List.foldl_cons]
      have hstep : phase2_step f keywords acc l = phase2_step g keywords acc l := by
        have hl := h l
        simp only [phase2_step]
        cases hfl : f l with
        | none =>
            cases hgl : g l with
            | none => rfl
            | some r => rw [hfl, hgl] at hl; simp at hl
        | some r =>
            cases hgl : g l with
            | none => rw [hfl, hgl] at hl; simp at hl
            | some r2 =>
                rw [hfl, hgl] at hl
                simp only [Option.map_some', Option.some.injEq] at hl
                show (if l ∈ acc.2 then acc
                    else (acc.1 ++ page_records l (stripTagsNode phase2_noise_tags r.doc) keywords,
                      acc.2 ++ [l])) =
                  if l ∈ acc.2 then acc
                  else (acc.1 ++ page_records l (stripTagsNode phase2_noise_tags r2.doc) keywords,
                    acc.2 ++ [l])
                rw [hl]
      rw [hstep, ih]

/-- C10: the orchestrator never inspects the HTTP status of a response — for
any two fetch oracles that return the same parsed bodies (and fail on the same
URLs) while possibly differing arbitrarily in status codes, the returned
record sequences are identical. -/
theorem c10_status_never_inspected (f g : String → Option Response) (base_url : String)
    (keywords : List String)
    (h : ∀ u, (f u).map Response.doc = (g u).map Response.doc) :
    scrape_logic f base_url keywords = scrape_logic g base_url keywords := by
  unfold scrape_logic
  have hb := h base_url
  cases hfb : f base_url with
  | none =>
      cases hgb : g base_url with
      | none => rfl
      | some r => rw [hfb, hgb] at hb; simp at hb
  | some r =>
      cases hgb : g base_url with
      | none => rw [hfb, hgb] at hb; simp at hb
      | some r2 =>
          rw [hfb, hgb] at hb
          simp only [Option.map_some', Option.some.injEq] at hb
          show ((find_relevant_links base_url (stripTagsNode phase1_noise_tags r.doc) keywords).foldl
              (phase2_step f keywords)
              (page_records base_url (stripTagsNode phase1_noise_tags r.doc) keywords, [base_url])).1 =
            ((find_relevant_links base_url (stripTagsNode phase1_noise_tags r2.doc) keywords).foldl
              (phase2_step g keywords)
              (page_records base_url (stripTagsNode phase1_noise_tags r2.doc) keywords, [base_url])).1
          rw [hb]
          exact congrArg Prod.fst (phase2_fold_status_blind f g keywords h _ _)

/-- Witness for C10: a 404 response with the same body yields the same,
non-empty, record sequence — the error status is treated as a successful
fetch and its body is classified. -/
theorem c10_status_never_inspected_witness :
    scrape_logic c10_fetch_ok "http://s.com/" ["fee"] =
        scrape_logic c10_fetch_err "http://s.com/" ["fee"] ∧
    scrape_logic c10_fetch_err "http://s.com/" ["fee"] =
      [{ keyword := "fee", context := "fee stuff", type := .textBlock, url := "http://s.com/" }] := by
  refine ⟨c10_status_never_inspected c10_fetch_ok c10_fetch_err "http://s.com/" ["fee"] ?_, by decide⟩
  intro u
  simp only [c10_fetch_ok, c10_fetch_err]
  by_cases hu : u = "http://s.com/" <;> simp [hu]

/-- C7 amended: for a match whose immediate containing element is a
header-like element (and with no enclosing table row, which is checked
first), the snippet is `"<header>: <value>"` whenever a next sibling element
exists AND its normalized text is nonempty; the fallback to the normalized
text of the header's parent is taken both when no next sibling element exists
and when the sibling's normalized text is empty. -/
theorem c7_header_snippet (kw s : String) (f : Frame) (fs : List Frame)
    (htr : (ancestorNodes (f.fill (.text s)) fs).find? (fun a => tagOf a = "tr") = none)
    (hh : f.tag ∈ header_tags) :
    (sibling_value fs ≠ "" →
      (classify_match kw s (f :: fs)).1 =
        clean_text (get_text "" (f.fill (.text s))) ++ ": " ++ sibling_value fs) ∧
    (sibling_value fs = "" →
      (classify_match kw s (f :: fs)).1 =
        clean_text (get_text "" (parent_node (f.fill (.text s)) fs))) ∧
    (classify_match kw s (f :: fs)).2 = .sectionHeader := by
  refine ⟨?_, ?_, ?_⟩
  · intro hv
    simp only [classify_match, htr, if_pos hh]
    rw [if_pos hv]
  · intro hv
    simp only [classify_match, htr, if_pos hh]
    rw [if_neg (by simp [hv])]
  · simp [classify_match, htr, hh]

/-- Witness for C7 (amended): a header with a nonempty-text sibling produces
the `"<header>: <value>"` snippet. -/
theorem c7_header_snippet_witness :
    (classify_match "Fee" "Fee" ({ tag := "b", attrs := [], left := [], right := [] } :: c7w_fs)).1 =
      "Fee: 1.5%" := by
  have h := (c7_header_snippet "Fee" "Fee"
    { tag := "b", attrs := [], left := [], right := [] } c7w_fs rfl (by decide)).1
    (by decide)
  exact h.trans (by decide)

/-- C7 counterexample: the match in the `b` element HAS a next sibling element
(the empty `span`), yet the emitted snippet is the parent fallback `"Feexyz"`
and not the claimed `"<header>: <value>"` form `"Fee: "`. -/
theorem c7_counterexample :
    (find_matches c7_doc "Fee").map
        (fun m => match m.2 with
          | _ :: pf :: _ => (pf.right.find? isElem).isSome
          | _ => false) = [true] ∧
    get_structured_data c7_doc ["Fee"] =
      [{ keyword := "Fee", context := "Feexyz", type := .sectionHeader }] ∧
    ("Feexyz" : String) ≠ "Fee" ++ ": " ++ "" := by
  refine ⟨by decide, by decide, by decide⟩

/-- The boolean prefix test agrees with list prefixing. -/
theorem prefixAt_iff (pat : List Char) :
    ∀ l : List Char, prefixAt pat l = true ↔ pat <+: l := by
  induction pat with
  | nil => intro l; simp [prefixAt]
  | cons p ps ih =>
      intro l
      cases l with
      | nil => simp [prefixAt]
      | cons c cs => simp [prefixAt, ih, List.cons_prefix_cons]

/-- A successful substring search yields the occurrence position: the pattern
is a prefix of the haystack dropped to the found index. -/
theorem findSub_some (pat : List Char) :
    ∀ (l : List Char) (i : Nat), findSub pat l = some i → pat <+: l.drop i := by
  intro l
  induction l with
  | nil =>
      intro i h
      simp only [findSub] at h
      split at h
      · rename_i hpre
        simp only [Option.some.injEq] at h
        subst h
        simpa using (prefixAt_iff pat []).mp hpre
      · simp at h
  | cons c cs ih =>
      intro i h
      simp only [findSub] at h
      split at h
      · rename_i hpre
        simp only [Option.some.injEq] at h
        subst h
        simpa using (prefixAt_iff pat (c :: cs)).mp hpre
      · cases hfs : findSub pat cs with
        | none => rw [hfs] at h; simp at h
        | some j =>
            rw [hfs] at h
            simp only [Option.map_some', Option.some.injEq] at h
            subst h
            simpa [List.drop_succ_cons] using ih j hfs

/-- An occurrence anywhere in the haystack makes the search succeed. -/
theorem findSub_isSome (pat : List Char) :
    ∀ (l : List Char) (j : Nat), pat <+: l.drop j → (findSub pat l).isSome = true := by
  intro l
  induction l with
  | nil =>
      intro j h
      rw [List.drop_nil, List.prefix_nil] at h
      subst h
      simp [findSub, prefixAt]
  | cons c cs ih =>
      intro j h
      simp only [findSub]
      split
      · simp
      · rename_i hpre
        cases j with
        | zero =>
            rw [List.drop_zero] at h
            exact absurd ((prefixAt_iff pat (c :: cs)).mpr h) (by simpa using hpre)
        | succ j =>
            rw [List.drop_succ_cons] at h
            have hih := ih j h
            cases hx : findSub pat cs with
            | none => rw [hx] at hih; simp at hih
            | some k => simp [hx]

/-- Evaluation of the truncation when the occurrence is found and the block is
long: the source's Int arithmetic collapses to Nat window bounds, a window
from 50 characters before to 150 characters after the start of the
occurrence. -/
theorem truncate_block_found (kw block : String) (i : Nat)
    (hfind : str_find (lower block) (lower kw) = some i) (hlen : 300 < block.length) :
    truncate_block kw block =
      "..." ++ String.mk ((block.data.drop (i - 50)).take
        (min block.length (i + 150) - (i - 50))) ++ "..." := by
  unfold truncate_block
  rw [if_pos hlen, hfind]
  show "..." ++ String.mk ((block.data.drop (max 0 ((i : Int) - 50)).toNat).take
      ((min ((block.length : Int)) ((i : Int) + 150) - max 0 ((i : Int) - 50)).toNat)) ++ "..." = _
  have h1 : (max 0 ((i : Int) - 50)).toNat = i - 50 := by omega
  have h2 : ((min ((block.length : Int)) ((i : Int) + 150)) - max 0 ((i : Int) - 50)).toNat =
      min block.length (i + 150) - (i - 50) := by omega
  rw [h1, h2]

/-- When none of rules 1–3 applies, the classifier emits the truncated
fallback block as a Text Block. -/
theorem classify_match_fallback (kw s : String) (f : Frame) (fs : List Frame)
    (htr : (ancestorNodes (f.fill (.text s)) fs).find? (fun a => tagOf a = "tr") = none)
    (hh : f.tag ∉ header_tags)
    (hli : (ancestorNodes (f.fill (.text s)) fs).find? (fun a => tagOf a = "li") = none) :
    classify_match kw s (f :: fs) =
      (truncate_block kw (fallback_block s f fs), .textBlock) := by
  simp only [classify_match, htr, hli, if_neg hh, fallback_block]

/-- Lowercasing distributes over string concatenation, at the level of
character data. -/
theorem lower_data_append (a b : String) :
    (lower (a ++ b)).data = (lower a).data ++ (lower b).data := by
  show ((a ++ b).data.map Char.toLower) = a.data.map Char.toLower ++ b.data.map Char.toLower
  rw [String.data_append, List.map_append]

/-- When the keyword is at most 150 characters long, the truncated snippet
still contains its occurrence case-insensitively. -/
theorem truncate_block_contains (kw block : String) (i : Nat)
    (hfind : str_find (lower block) (lower kw) = some i)
    (hlen : 300 < block.length) (hkw : kw.length ≤ 150) :
    containsCI (truncate_block kw block) kw = true := by
  have hpre : (lower kw).data <+: ((lower block).data).drop i :=
    findSub_some (lower kw).data (lower block).data i hfind
  have hpk_len : (lower kw).data.length = kw.length := List.length_map _ _
  have hlb_len : (lower block).data.length = block.length := List.length_map _ _
  have hbound : (lower kw).data.length ≤ (lower block).data.length - i := by
    have hd := hpre.length_le
    rwa [List.length_drop] at hd
  rw [truncate_block_found kw block i hfind hlen]
  show (findSub (lower kw).data
      ((lower ("..." ++ String.mk ((block.data.drop (i - 50)).take
        (min block.length (i + 150) - (i - 50))) ++ "...")).data)).isSome = true
  have hdots : (lower ("..." : String)).data = ("..." : String).data := by decide
  have hmid : (lower (String.mk ((block.data.drop (i - 50)).take
      (min block.length (i + 150) - (i - 50))))).data =
      ((lower block).data.drop (i - 50)).take (min block.length (i + 150) - (i - 50)) := by
    show ((block.data.drop (i - 50)).take
      (min block.length (i + 150) - (i - 50))).map Char.toLower = _
    rw [List.map_take, List.map_drop]
    rfl
  rw [lower_data_append, lower_data_append, hmid, hdots, List.append_assoc]
  apply findSub_isSome (lower kw).data _ (("..." : String).data.length + (i - (i - 50)))
  rw [List.drop_append, List.drop_append_eq_append_drop]
  refine List.IsPrefix.trans ?_ (List.prefix_append _ _)
  rw [List.drop_take, List.drop_drop]
  have heq1 : (i - 50) + (i - (i - 50)) = i := by omega
  have heq2 : min block.length (i + 150) - (i - 50) - (i - (i - 50)) =
      min block.length (i + 150) - i := by omega
  rw [heq1, heq2, List.prefix_take_iff]
  refine ⟨hpre, ?_⟩
  rw [hpk_len]
  rw [hlb_len] at hbound
  rw [hpk_len] at hbound
  omega

/-- C2 amended: for a Text-Block match whose normalized container text
exceeds 300 characters and contains the keyword case-insensitively, the
emitted snippet is the window of that text from up to 50 characters before to
up to 150 characters after the START of the keyword's first case-insensitive
occurrence, between ellipsis markers; and whenever the keyword is at most 150
characters long the emitted snippet contains the keyword. -/
theorem c2_truncation_window (kw s : String) (f : Frame) (fs : List Frame)
    (htr : (ancestorNodes (f.fill (.text s)) fs).find? (fun a => tagOf a = "tr") = none)
    (hh : f.tag ∉ header_tags)
    (hli : (ancestorNodes (f.fill (.text s)) fs).find? (fun a => tagOf a = "li") = none)
    (i : Nat)
    (hfind : str_find (lower (fallback_block s f fs)) (lower kw) = some i)
    (hlen : 300 < (fallback_block s f fs).length)
    (hkw : kw.length ≤ 150) :
    (classify_match kw s (f :: fs)).1 =
      "..." ++ String.mk (((fallback_block s f fs).data.drop (i - 50)).take
        (min (fallback_block s f fs).length (i + 150) - (i - 50))) ++ "..." ∧
    containsCI ((classify_match kw s (f :: fs)).1) kw = true := by
  rw [classify_match_fallback kw s f fs htr hh hli]
  exact ⟨truncate_block_found _ _ i hfind hlen,
    truncate_block_contains _ _ i hfind hlen hkw⟩

/-- Witness for C2 (amended) at a concrete long paragraph: the truncated
snippet of the 301-character block still contains the 3-character keyword. -/
theorem c2_truncation_window_witness :
    containsCI (classify_match "fee" c2w_s
      ({ tag := "p", attrs := [], left := [], right := [] } ::
        [{ tag := "[document]", attrs := [], left := [], right := [] }])).1 "fee" = true := by
  have h := c2_truncation_window "fee" c2w_s
    { tag := "p", attrs := [], left := [], right := [] }
    [{ tag := "[document]", attrs := [], left := [], right := [] }]
    rfl (by decide) rfl 0 (by decide) (by decide) (by decide)
  exact h.2

/-- C2 counterexample: the truncation window ends 150 characters after the
START of the occurrence, so a 151-character keyword is cut and the emitted
snippet does NOT contain the keyword, against the claim's unconditional
"the emitted snippet contains the keyword". -/
theorem c2_counterexample :
    get_structured_data c2_doc [c2_long_kw] =
      [{ keyword := c2_long_kw,
         context := "..." ++ String.mk (List.replicate 150 'a') ++ "...",
         type := .textBlock }] ∧
    containsCI ("..." ++ String.mk (List.replicate 150 'a') ++ "...") c2_long_kw = false := by
  constructor
  · decide
  · decide
